import Mathlib

/-!
Verification of the secure-exchange core of the matrix-rust-sdk repository:
the key-export codec (`src/matrix_sdk_crypto/src/file_encryption/key_export.rs`),
the QR verification payload codec (`src/matrix_qrcode/src/utils.rs`), and the
outgoing request / response correlator (`src/matrix_sdk_crypto/src/requests.rs`).

Bytes are modelled as `Nat` values, with the `< 256` bound carried as
hypotheses where it matters.  External crates (pbkdf2, hmac, aes-ctr, serde)
are modelled as parameters with only the properties their Rust types
guarantee (output lengths, byte bounds); base64 — provided by the crate
`base64` / the repository's `utilities` module, not present under `src/` —
is modelled from the spec: "base64 (unpadded, standard alphabet)".
-/

set_option maxHeartbeats 1000000

namespace MatrixSdk

/-! ### Big-endian integer framing primitives -/

/-- Big-endian byte list to natural number (`u128::from_be_bytes` and
`ReadBytesExt::read_u32::<BigEndian>` in the source). -/
def beBytesToNat (bs : List Nat) : Nat :=
  bs.foldl (fun acc b => acc * 256 + b) 0

/-- `n.to_be_bytes()` for a `k`-byte integer: the `k` big-endian bytes of `n`. -/
def natToBeBytes : Nat → Nat → List Nat
  | 0, _ => []
  | k + 1, n => natToBeBytes k (n / 256) ++ [n % 256]

/-! ### Base64, unpadded, standard alphabet

Modelled from the spec: the repository's `utilities::{encode, decode}`
(used by the key-export codec) and the `base64` crate's `STANDARD_NO_PAD`
configuration (used by the QR codec) are not under `src/`; the spec
describes them as "base64 (unpadded, standard alphabet) encode/decode".
Decoding rejects invalid characters, a remainder length of 1, and
non-zero trailing bits, as the standard configuration does. -/

/-- The character of the standard base64 alphabet for a sextet. -/
def sextetChar (s : Nat) : Char :=
  if s < 26 then Char.ofNat (65 + s)
  else if s < 52 then Char.ofNat (97 + (s - 26))
  else if s < 62 then Char.ofNat (48 + (s - 52))
  else if s = 62 then '+' else '/'

/-- Inverse of `sextetChar` on the standard alphabet; `none` elsewhere. -/
def charSextet (c : Char) : Option Nat :=
  if 65 ≤ c.toNat ∧ c.toNat ≤ 90 then some (c.toNat - 65)
  else if 97 ≤ c.toNat ∧ c.toNat ≤ 122 then some (c.toNat - 97 + 26)
  else if 48 ≤ c.toNat ∧ c.toNat ≤ 57 then some (c.toNat - 48 + 52)
  else if c = '+' then some 62
  else if c = '/' then some 63
  else none

/-- Split a byte list into base64 sextets (the bit-level regrouping that
base64 encoding performs, including the final 2- or 3-sextet remainder). -/
def bytesToSextets : List Nat → List Nat
  | [] => []
  | [b1] => [b1 / 4, b1 % 4 * 16]
  | [b1, b2] => [b1 / 4, b1 % 4 * 16 + b2 / 16, b2 % 16 * 4]
  | b1 :: b2 :: b3 :: rest =>
      b1 / 4 :: (b1 % 4 * 16 + b2 / 16) :: (b2 % 16 * 4 + b3 / 64) :: b3 % 64 ::
        bytesToSextets rest

/-- Reassemble bytes from sextets, rejecting a remainder of one sextet and
non-zero trailing bits. -/
def sextetsToBytes : List Nat → Option (List Nat)
  | [] => some []
  | [_] => none
  | [s1, s2] => if s2 % 16 = 0 then some [s1 * 4 + s2 / 16] else none
  | [s1, s2, s3] =>
      if s3 % 4 = 0 then some [s1 * 4 + s2 / 16, s2 % 16 * 16 + s3 / 4] else none
  | s1 :: s2 :: s3 :: s4 :: rest => do
      let tail ← sextetsToBytes rest
      pure ((s1 * 4 + s2 / 16) :: (s2 % 16 * 16 + s3 / 4) :: (s3 % 4 * 64 + s4) :: tail)

/-- Base64-encode a byte list (spec-modelled `utilities::encode` /
`base_64_encode`, standard alphabet, no padding). -/
def b64encode (data : List Nat) : String :=
  ⟨(bytesToSextets data).map sextetChar⟩

/-- Base64-decode a string (spec-modelled `utilities::decode` /
`base64_decode`, standard alphabet, no padding). -/
def b64decode (s : String) : Option (List Nat) :=
  (s.data.mapM charSextet).bind sextetsToBytes

/-! ### UTF-8 and Rust `str` helpers

Models of the Rust standard-library string operations the source uses:
`str::as_bytes` / `String::into_bytes` (UTF-8 encoding), `str::len`
(UTF-8 byte length), `str::starts_with` / `ends_with`, `trim_start` /
`trim_end`, and `str::lines`. -/

/-- The UTF-8 encoding of one character. -/
def utf8Char (c : Char) : List Nat :=
  let n := c.toNat
  if n < 0x80 then [n]
  else if n < 0x800 then [0xC0 + n / 64, 0x80 + n % 64]
  else if n < 0x10000 then [0xE0 + n / 4096, 0x80 + n / 64 % 64, 0x80 + n % 64]
  else [0xF0 + n / 262144, 0x80 + n / 4096 % 64, 0x80 + n / 64 % 64, 0x80 + n % 64]

/-- `str::as_bytes`: the UTF-8 bytes of a string. -/
def utf8Bytes (s : String) : List Nat :=
  (s.data.map utf8Char).flatten

/-- `str::starts_with` for a string pattern. -/
def rsStartsWith (s pre : String) : Bool :=
  pre.data.isPrefixOf s.data

/-- `str::ends_with` for a string pattern. -/
def rsEndsWith (s suf : String) : Bool :=
  suf.data.isSuffixOf s.data

/-- The whitespace characters relevant to the armored format.  Rust's
`char::is_whitespace` accepts the full Unicode White_Space class; this model
restricts to the ASCII members, which is immaterial here because the armor
markers begin and end with `-`. -/
def rsIsWhitespace (c : Char) : Bool :=
  c = ' ' || c = '\t' || c = '\n' || c = '\r'

/-- `str::trim_start` (restricted to ASCII whitespace, see `rsIsWhitespace`). -/
def rsTrimStart (s : String) : String :=
  ⟨s.data.dropWhile rsIsWhitespace⟩

/-- `str::trim_end` (restricted to ASCII whitespace, see `rsIsWhitespace`). -/
def rsTrimEnd (s : String) : String :=
  ⟨(s.data.reverse.dropWhile rsIsWhitespace).reverse⟩

/-- Split a character list at every newline; the pieces exclude the `\n`
terminators.  `splitNl l` always returns one more piece than `l` has
newlines. -/
def splitNl : List Char → List (List Char)
  | [] => [[]]
  | c :: rest =>
      if c = '\n' then [] :: splitNl rest
      else
        match splitNl rest with
        | [] => [[c]]
        | l :: ls => (c :: l) :: ls

/-- Strip one trailing carriage return, as `str::lines` does from every
piece that was terminated by a newline. -/
def stripCr (l : List Char) : List Char :=
  if l.getLast? = some '\r' then l.dropLast else l

/-- `str::lines`: split at `\n` (stripping a preceding `\r` from terminated
lines) and drop a final empty piece. -/
def rsLines (s : String) : List String :=
  let ps := splitNl s.data
  let init := (ps.dropLast.map stripCr).map List.asString
  match ps.getLast? with
  | some [] => init
  | some l => init ++ [l.asString]
  | none => init

/-! ### Key Export Codec
(`src/matrix_sdk_crypto/src/file_encryption/key_export.rs`) -/

namespace KeyExport

def SALT_SIZE : Nat := 16
def IV_SIZE : Nat := 16
def MAC_SIZE : Nat := 32
def KEY_SIZE : Nat := 32
def VERSION : Nat := 1

def HEADER : String := "-----BEGIN MEGOLM SESSION DATA-----"
def FOOTER : String := "-----END MEGOLM SESSION DATA-----"

/-- The external cryptographic primitives used by the codec (the `pbkdf2`,
`hmac`, `sha2` and `aes_ctr` crates).  Only the properties guaranteed by
their Rust types are carried: pbkdf2 fills the 64-byte derived-key buffer,
HMAC-SHA-256 produces a 32-byte tag, and an AES-CTR keystream is a byte
stream determined by key and nonce.  Any cryptographic-strength property
(e.g. that distinct messages get distinct MACs) is never assumed here; it
appears only as an explicit hypothesis of individual theorems. -/
structure CryptoPrims where
  pbkdf2Sha512 : List Nat → List Nat → Nat → List Nat
  pbkdf2Length : ∀ p s r, (pbkdf2Sha512 p s r).length = 64
  pbkdf2Bytes : ∀ p s r, ∀ b ∈ pbkdf2Sha512 p s r, b < 256
  aesCtrKeystream : List Nat → List Nat → Nat → Nat
  aesCtrBytes : ∀ k iv i, aesCtrKeystream k iv i < 256
  hmacSha256 : List Nat → List Nat → List Nat
  hmacLength : ∀ k m, (hmacSha256 k m).length = 32
  hmacBytes : ∀ k m, ∀ b ∈ hmacSha256 k m, b < 256

/-- `SyncStreamCipher::apply_keystream` for a counter-mode cipher: XOR the
data with the keystream byte at each position, starting at stream index
`i`.  Encryption and decryption are the same operation. -/
def xorStream (ks : Nat → Nat) : Nat → List Nat → List Nat
  | _, [] => []
  | i, b :: rest => (b ^^^ ks i) :: xorStream ks (i + 1) rest

/-- The mask `!(1u128 << 63)` applied to the 128-bit iv in `encrypt_helper`
(`iv &= !(1 << 63)`).  Note that the literal `1` is a `u128`, so the mask
clears bit 63, not bit 127. -/
def ivMask : Nat := 2 ^ 128 - 1 - 2 ^ 63

/-- The bytes of the on-wire payload that the MAC is computed over:
`version ‖ salt ‖ iv ‖ rounds ‖ ciphertext` (`encrypt_helper`, before
the MAC is appended).  The iv is interpreted as a big-endian 128-bit
integer, masked with `ivMask`, and re-serialized, exactly as the source
does with `u128::from_be_bytes` / `to_be_bytes`. -/
def encryptBody (C : CryptoPrims) (plaintext : List Nat) (passphrase : String)
    (rounds : Nat) (salt ivBytes : List Nat) : List Nat :=
  let iv := Nat.land (beBytesToNat ivBytes) ivMask
  let ivb := natToBeBytes 16 iv
  let derivedKeys := C.pbkdf2Sha512 (utf8Bytes passphrase) salt rounds
  let key := derivedKeys.take KEY_SIZE
  let ciphertext := xorStream (C.aesCtrKeystream key ivb) 0 plaintext
  [VERSION] ++ salt ++ ivb ++ natToBeBytes 4 rounds ++ ciphertext

/-- The full decoded payload produced by `encrypt_helper`: the MAC-covered
body followed by the 32-byte HMAC-SHA-256 tag keyed with the second half
of the derived key material. -/
def encryptPayload (C : CryptoPrims) (plaintext : List Nat) (passphrase : String)
    (rounds : Nat) (salt ivBytes : List Nat) : List Nat :=
  let body := encryptBody C plaintext passphrase rounds salt ivBytes
  let hmacKey := (C.pbkdf2Sha512 (utf8Bytes passphrase) salt rounds).drop KEY_SIZE
  body ++ C.hmacSha256 hmacKey body

/-- `encrypt_helper`: encrypt, frame, authenticate, and base64-encode.
The salt and iv bytes are parameters standing for the values `getrandom`
filled in (the source panics if the randomness source fails; that
process-fatal path is outside the embedding). -/
def encrypt_helper (C : CryptoPrims) (plaintext : List Nat) (passphrase : String)
    (rounds : Nat) (salt ivBytes : List Nat) : String :=
  b64encode (encryptPayload C plaintext passphrase rounds salt ivBytes)

/-- `KeyExportError`.  The source's `InvalidUtf8` and `Json` variants are
collapsed into `Json` because post-decryption deserialization (UTF-8
validation plus `serde_json`) is external and modelled as one abstract
parser; `Io` stands for the `std::io::Error` variant raised by short
reads. -/
inductive KeyExportError where
  | InvalidHeaders
  | UnsupportedVersion
  | InvalidMac
  | Json
  | Decode
  | Io
  deriving DecidableEq, Repr

/-- The body of `decrypt_helper` after base64 decoding: parse the fixed
header fields, gate on the version, recompute and compare the MAC over
`decoded[0 .. len - 32]` (the input as received), and only on success run
the stream cipher over the ciphertext region.

A decoded payload shorter than 37 bytes makes one of the header reads (or
the `seek` past the MAC) fail with an io error.  For a payload with
37 ≤ len < 69 whose MAC check passes, the source would panic on the
reversed slice `decoded[37 .. len-32]`; the model returns the empty slice
there (the case is unreachable in every theorem below). -/
def decryptPayload (C : CryptoPrims) (decoded : List Nat) (passphrase : String) :
    Except KeyExportError (List Nat) :=
  if decoded.length < 37 then .error .Io
  else
    let version := decoded.headD 0
    let salt := (decoded.drop 1).take SALT_SIZE
    let ivb := (decoded.drop 17).take IV_SIZE
    let rounds := beBytesToNat ((decoded.drop 33).take 4)
    let ciphertextEnd := decoded.length - MAC_SIZE
    let mac := decoded.drop ciphertextEnd
    if version ≠ VERSION then .error .UnsupportedVersion
    else
      let derivedKeys := C.pbkdf2Sha512 (utf8Bytes passphrase) salt rounds
      let key := derivedKeys.take KEY_SIZE
      let hmacKey := derivedKeys.drop KEY_SIZE
      if C.hmacSha256 hmacKey (decoded.take ciphertextEnd) ≠ mac then .error .InvalidMac
      else
        .ok (xorStream (C.aesCtrKeystream key ivb) 0
          ((decoded.drop 37).take (ciphertextEnd - 37)))

/-- `decrypt_helper`: base64-decode, then `decryptPayload`. -/
def decrypt_helper (C : CryptoPrims) (ciphertext : String) (passphrase : String) :
    Except KeyExportError (List Nat) :=
  match b64decode ciphertext with
  | none => .error .Decode
  | some decoded => decryptPayload C decoded passphrase

/-- `[HEADER, ciphertext, FOOTER].join("\n")` from `encrypt_key_export`. -/
def armorText (payload : String) : String :=
  HEADER ++ "\n" ++ payload ++ "\n" ++ FOOTER

/-- `encrypt_key_export`, with the `serde_json` serializer abstracted as
`ser` (serialization of the externally-defined `ExportedRoomKey` list to
UTF-8 bytes; the source's serialize-failure path is external to this
core). -/
def encrypt_key_export {K : Type} (C : CryptoPrims) (ser : List K → List Nat)
    (keys : List K) (passphrase : String) (rounds : Nat)
    (salt ivBytes : List Nat) : String :=
  armorText (encrypt_helper C (ser keys) passphrase rounds salt ivBytes)

/-- `decrypt_key_export`: check the armor markers on the trimmed input,
strip every line starting with a marker, concatenate the rest into the
base64 payload, decrypt it, and deserialize the plaintext (`deser`
abstracts UTF-8 validation plus `serde_json::from_str`). -/
def decrypt_key_export {K : Type} (C : CryptoPrims)
    (deser : List Nat → Option (List K)) (input : String) (passphrase : String) :
    Except KeyExportError (List K) :=
  if !(rsStartsWith (rsTrimStart input) HEADER && rsEndsWith (rsTrimEnd input) FOOTER)
  then .error .InvalidHeaders
  else
    let payload := String.join
      ((rsLines input).filter fun l => !(rsStartsWith l HEADER || rsStartsWith l FOOTER))
    match decrypt_helper C payload passphrase with
    | .error e => .error e
    | .ok bytes =>
      match deser bytes with
      | none => .error .Json
      | some keys => .ok keys

/-- A trivial instantiation of the external primitives (all-zero derived
keys, zero keystream, all-zero MAC), used to evaluate theorems on concrete
inputs. -/
def trivPrims : CryptoPrims where
  pbkdf2Sha512 := fun _ _ _ => List.replicate 64 0
  pbkdf2Length := fun _ _ _ => by simp
  pbkdf2Bytes := fun _ _ _ b hb => by
    have := List.eq_of_mem_replicate hb
    omega
  aesCtrKeystream := fun _ _ _ => 0
  aesCtrBytes := fun _ _ _ => by norm_num
  hmacSha256 := fun _ _ => List.replicate 32 0
  hmacLength := fun _ _ => by simp
  hmacBytes := fun _ _ b hb => by
    have := List.eq_of_mem_replicate hb
    omega

/-- A passphrase-sensitive instantiation of the primitives: the derived key
material is 64 copies of the first passphrase byte and the MAC is the first
32 key bytes (padded with zeros), so exports made under passphrases with
different first bytes carry different MACs.  Used to evaluate theorems
whose hypotheses require the MAC to distinguish derived keys. -/
def keyedPrims : CryptoPrims where
  pbkdf2Sha512 := fun p _ _ => List.replicate 64 (p.headD 0 % 256)
  pbkdf2Length := fun _ _ _ => by simp
  pbkdf2Bytes := fun _ _ _ b hb => by
    have := List.eq_of_mem_replicate hb
    subst this
    exact Nat.mod_lt _ (by norm_num)
  aesCtrKeystream := fun _ _ _ => 0
  aesCtrBytes := fun _ _ _ => by norm_num
  hmacSha256 := fun k _ => ((k.map (· % 256)).take 32 ++ List.replicate 32 0).take 32
  hmacLength := fun k _ => by
    simp [List.length_take, List.length_append]
  hmacBytes := fun k m b hb => by
    have hb1 := List.mem_of_mem_take hb
    rcases List.mem_append.1 hb1 with h | h
    · have h2 := List.mem_of_mem_take h
      obtain ⟨a, _, rfl⟩ := List.mem_map.1 h2
      exact Nat.mod_lt _ (by norm_num)
    · have := List.eq_of_mem_replicate h
      omega

end KeyExport

/-! ### Verification Payload Codec (`src/matrix_qrcode/src/utils.rs`) -/

namespace QrCode

/-- `HEADER`: the 6-byte magic tag, `b"MATRIX"`. -/
def HEADER : List Nat := [77, 65, 84, 82, 73, 88]

def VERSION : Nat := 2
def MAX_MODE : Nat := 2
def MIN_SECRET_LEN : Nat := 8

/-- `EncodingError`: `flow_id.len()` exceeding `u16` (`TryFromIntError`)
or a key/secret failing base64 decoding (`base64::DecodeError`). -/
inductive EncodingError where
  | FlowIdLength
  | Base64
  deriving DecidableEq, Repr

/-- `to_bytes`: frame a verification record.  `flow_id.len()` is the UTF-8
byte length; the three key/secret arguments are base64-decoded into raw
bytes before framing. -/
def to_bytes (mode : Nat) (flow_id : String)
    (first_key second_key shared_secret : String) :
    Except EncodingError (List Nat) :=
  if 65535 < (utf8Bytes flow_id).length then .error .FlowIdLength
  else
    match b64decode first_key with
    | none => .error .Base64
    | some k1 =>
      match b64decode second_key with
      | none => .error .Base64
      | some k2 =>
        match b64decode shared_secret with
        | none => .error .Base64
        | some secret =>
          .ok (HEADER ++ [VERSION] ++ [mode] ++
            natToBeBytes 2 (utf8Bytes flow_id).length ++
            utf8Bytes flow_id ++ k1 ++ k2 ++ secret)

/-- `DecodingError`, restricted to the two outcomes `decode_qr` produces:
the `Header` variant and the conversion of an `rqrr` grid-decode error
(type parameter `E`, an external crate type). -/
inductive DecodingError (E : Type) where
  | Header
  | Grid (e : E)
  deriving DecidableEq, Repr

/-- The loop of `decode_qr` over the detected grids.  Each list entry is
the outcome of `grid.decode_to` for one detected region (the image
scanning itself is the external `rqrr` crate); `err` is the `error`
accumulator variable, holding the most recent structural decode error. -/
def decodeQrLoop {E : Type} :
    List (Except E (List Nat)) → Option E → Except (DecodingError E) (List Nat)
  | [], err =>
    match err with
    | some e => .error (.Grid e)
    | none => .error .Header
  | g :: gs, err =>
    match g with
    | .ok d => if HEADER.isPrefixOf d then .ok d else decodeQrLoop gs err
    | .error e => decodeQrLoop gs (some e)

/-- `decode_qr`, given the per-grid decode outcomes in detection order. -/
def decode_qr {E : Type} (grids : List (Except E (List Nat))) :
    Except (DecodingError E) (List Nat) :=
  decodeQrLoop grids none

/-- The first successfully decoded payload carrying the magic tag. -/
def firstTagMatch {E : Type} (grids : List (Except E (List Nat))) :
    Option (List Nat) :=
  (grids.filterMap fun g =>
    match g with
    | .ok d => if HEADER.isPrefixOf d then some d else none
    | .error _ => none).head?

/-- The most recent (last, in detection order) structural decode error. -/
def lastGridError {E : Type} (grids : List (Except E (List Nat))) : Option E :=
  (grids.filterMap fun g =>
    match g with
    | .error e => some e
    | .ok _ => none).getLast?

end QrCode

/-! ### Outgoing Request / Response Correlator
(`src/matrix_sdk_crypto/src/requests.rs`) -/

namespace Requests

/-- `ToDeviceRequest`.  `Uuid` is modelled as a natural number (its
128-bit value); the `BTreeMap` of messages as an association list of
users to association lists of device targets to opaque serialized
content. -/
structure ToDeviceRequest where
  event_type : String
  txn_id : Nat
  messages : List (String × List (String × String))

/-- `RoomMessageRequest` (content is an opaque externally-defined event
content value). -/
structure RoomMessageRequest where
  room_id : String
  txn_id : Nat
  content : String

/-- `KeysQueryRequest` (timeout as milliseconds). -/
structure KeysQueryRequest where
  timeout : Option Nat
  device_keys : List (String × List String)
  token : Option String

/-- The externally-defined (`ruma`) keys-upload request; opaque to this
core. -/
structure KeysUploadRequest where
  payload : String

/-- The externally-defined (`ruma`) signature-upload request; opaque to
this core. -/
structure SignatureUploadRequest where
  payload : String

/-- `OutgoingRequests`: the closed set of outgoing request kinds. -/
inductive OutgoingRequests where
  | KeysUpload (r : KeysUploadRequest)
  | KeysQuery (r : KeysQueryRequest)
  | ToDeviceRequest (r : ToDeviceRequest)
  | SignatureUpload (r : SignatureUploadRequest)
  | RoomMessage (r : RoomMessageRequest)

/-- `OutgoingRequest`: the correlation id plus the wrapped request. -/
structure OutgoingRequest where
  request_id : Nat
  request : OutgoingRequests

/-- `OutgoingVerificationRequest`. -/
inductive OutgoingVerificationRequest where
  | ToDevice (t : ToDeviceRequest)
  | InRoom (r : RoomMessageRequest)

/-- `OutgoingVerificationRequest::request_id`: the txn id of the
underlying request. -/
def OutgoingVerificationRequest.request_id :
    OutgoingVerificationRequest → Nat
  | .ToDevice t => t.txn_id
  | .InRoom r => r.txn_id

/-- `From<OutgoingVerificationRequest> for OutgoingRequests`. -/
def outgoingRequestsOfVerification :
    OutgoingVerificationRequest → OutgoingRequests
  | .ToDevice r => .ToDeviceRequest r
  | .InRoom r => .RoomMessage r

/-- `From<OutgoingVerificationRequest> for OutgoingRequest`:
`Self { request_id: r.request_id(), request: Arc::new(r.into()) }`. -/
def outgoingRequestOfVerification (r : OutgoingVerificationRequest) :
    OutgoingRequest :=
  { request_id := r.request_id, request := outgoingRequestsOfVerification r }

end Requests

/-! ### Theorems -/

theorem natToBeBytes_length (k n : Nat) : (natToBeBytes k n).length = k := by
  induction k generalizing n with
  | zero => rfl
  | succ k ih => simp [natToBeBytes, ih]

theorem natToBeBytes_lt (k n : Nat) : ∀ b ∈ natToBeBytes k n, b < 256 := by
  induction k generalizing n with
  | zero => simp [natToBeBytes]
  | succ k ih =>
    intro b hb
    simp only [natToBeBytes, List.mem_append, List.mem_singleton] at hb
    rcases hb with hb | hb
    · exact ih _ b hb
    · omega

theorem beBytesToNat_append_singleton (bs : List Nat) (b : Nat) :
    beBytesToNat (bs ++ [b]) = beBytesToNat bs * 256 + b := by
  simp [beBytesToNat]

theorem beBytesToNat_natToBeBytes (k n : Nat) :
    beBytesToNat (natToBeBytes k n) = n % 256 ^ k := by
  induction k generalizing n with
  | zero => simp [natToBeBytes, beBytesToNat, Nat.mod_one]
  | succ k ih =>
    rw [natToBeBytes, beBytesToNat_append_singleton, ih]
    rw [pow_succ', Nat.mod_mul]
    omega

theorem beBytesToNat_natToBeBytes_of_lt (k n : Nat) (h : n < 256 ^ k) :
    beBytesToNat (natToBeBytes k n) = n := by
  rw [beBytesToNat_natToBeBytes, Nat.mod_eq_of_lt h]

theorem charSextet_sextetChar : ∀ s < 64, charSextet (sextetChar s) = some s := by
  decide

theorem sextetsToBytes_bytesToSextets (bs : List Nat) (h : ∀ b ∈ bs, b < 256) :
    sextetsToBytes (bytesToSextets bs) = some bs := by
  match bs with
  | [] => rfl
  | [b1] =>
    have h1 : b1 < 256 := h b1 (by simp)
    simp only [bytesToSextets, sextetsToBytes]
    have : b1 % 4 * 16 % 16 = 0 := by omega
    rw [if_pos this]
    congr 1
    congr 1
    omega
  | [b1, b2] =>
    have h1 : b1 < 256 := h b1 (by simp)
    have h2 : b2 < 256 := h b2 (by simp)
    simp only [bytesToSextets, sextetsToBytes]
    have : b2 % 16 * 4 % 4 = 0 := by omega
    rw [if_pos this]
    congr 1
    have e1 : b1 / 4 * 4 + (b1 % 4 * 16 + b2 / 16) / 16 = b1 := by omega
    have e2 : (b1 % 4 * 16 + b2 / 16) % 16 * 16 + b2 % 16 * 4 / 4 = b2 := by omega
    rw [e1, e2]
  | b1 :: b2 :: b3 :: rest =>
    have h1 : b1 < 256 := h b1 (by simp)
    have h2 : b2 < 256 := h b2 (by simp)
    have h3 : b3 < 256 := h b3 (by simp)
    have ih := sextetsToBytes_bytesToSextets rest (fun b hb => h b (by simp [hb]))
    simp only [bytesToSextets, sextetsToBytes, ih, Option.bind_eq_bind,
      Option.some_bind]
    have e1 : b1 / 4 * 4 + (b1 % 4 * 16 + b2 / 16) / 16 = b1 := by omega
    have e2 : (b1 % 4 * 16 + b2 / 16) % 16 * 16 + (b2 % 16 * 4 + b3 / 64) / 4 = b2 := by
      omega
    have e3 : (b2 % 16 * 4 + b3 / 64) % 4 * 64 + b3 % 64 = b3 := by omega
    rw [e1, e2, e3]
    rfl

theorem bytesToSextets_lt (bs : List Nat) (h : ∀ b ∈ bs, b < 256) :
    ∀ s ∈ bytesToSextets bs, s < 64 := by
  match bs with
  | [] => simp [bytesToSextets]
  | [b1] =>
    have h1 : b1 < 256 := h b1 (by simp)
    intro s hs
    simp only [bytesToSextets, List.mem_cons, List.not_mem_nil, or_false] at hs
    rcases hs with rfl | rfl <;> omega
  | [b1, b2] =>
    have h1 : b1 < 256 := h b1 (by simp)
    have h2 : b2 < 256 := h b2 (by simp)
    intro s hs
    simp only [bytesToSextets, List.mem_cons, List.not_mem_nil, or_false] at hs
    rcases hs with rfl | rfl | rfl <;> omega
  | b1 :: b2 :: b3 :: rest =>
    have h1 : b1 < 256 := h b1 (by simp)
    have h2 : b2 < 256 := h b2 (by simp)
    have h3 : b3 < 256 := h b3 (by simp)
    have ih := bytesToSextets_lt rest (fun b hb => h b (by simp [hb]))
    intro s hs
    simp only [bytesToSextets, List.mem_cons] at hs
    rcases hs with rfl | rfl | rfl | rfl | hs
    · omega
    · omega
    · omega
    · omega
    · exact ih s hs

theorem mapM_charSextet_map_sextetChar (sx : List Nat) (h : ∀ s ∈ sx, s < 64) :
    (sx.map sextetChar).mapM charSextet = some sx := by
  induction sx with
  | nil => rfl
  | cons s rest ih =>
    have hs : s < 64 := h s (by simp)
    have ihr := ih (fun t ht => h t (by simp [ht]))
    simp only [List.map_cons, List.mapM_cons, charSextet_sextetChar s hs, ihr]
    rfl

/-- Round trip of the spec-modelled base64 codec. -/
theorem b64decode_b64encode (bs : List Nat) (h : ∀ b ∈ bs, b < 256) :
    b64decode (b64encode bs) = some bs := by
  unfold b64encode b64decode
  rw [show (String.mk ((bytesToSextets bs).map sextetChar)).data
      = (bytesToSextets bs).map sextetChar from rfl]
  rw [mapM_charSextet_map_sextetChar _ (bytesToSextets_lt bs h)]
  simpa using sextetsToBytes_bytesToSextets bs h

theorem splitNl_ne_nil (l : List Char) : splitNl l ≠ [] := by
  match l with
  | [] => simp [splitNl]
  | c :: rest =>
    unfold splitNl
    split
    · simp
    · match h : splitNl rest with
      | [] => simp
      | l :: ls => simp

/-- Splitting a list whose head chunk contains no newline and is followed
by an explicit newline. -/
theorem splitNl_append_newline (xs ys : List Char) (h : '\n' ∉ xs) :
    splitNl (xs ++ '\n' :: ys) = xs :: splitNl ys := by
  induction xs with
  | nil => simp [splitNl]
  | cons c rest ih =>
    have hc : c ≠ '\n' := fun hc => h (by simp [hc])
    have hrest : '\n' ∉ rest := fun hr => h (by simp [hr])
    simp only [List.cons_append, splitNl, if_neg hc]
    rw [show rest.append ('\n' :: ys) = rest ++ '\n' :: ys from rfl, ih hrest]

theorem splitNl_no_newline (xs : List Char) (h : '\n' ∉ xs) :
    splitNl xs = [xs] := by
  induction xs with
  | nil => rfl
  | cons c rest ih =>
    have hc : c ≠ '\n' := fun hc => h (by simp [hc])
    have hrest : '\n' ∉ rest := fun hr => h (by simp [hr])
    simp only [splitNl, if_neg hc, ih hrest]

namespace KeyExport

theorem xorStream_length (ks : Nat → Nat) (i : Nat) (bs : List Nat) :
    (xorStream ks i bs).length = bs.length := by
  induction bs generalizing i with
  | nil => rfl
  | cons b rest ih => simp [xorStream, ih]

theorem xorStream_xorStream (ks : Nat → Nat) (i : Nat) (bs : List Nat) :
    xorStream ks i (xorStream ks i bs) = bs := by
  induction bs generalizing i with
  | nil => rfl
  | cons b rest ih =>
    simp only [xorStream, ih]
    rw [Nat.xor_cancel_right]

theorem xorStream_lt (ks : Nat → Nat) (hks : ∀ i, ks i < 256) (i : Nat)
    (bs : List Nat) (h : ∀ b ∈ bs, b < 256) : ∀ b ∈ xorStream ks i bs, b < 256 := by
  induction bs generalizing i with
  | nil => simp [xorStream]
  | cons b rest ih =>
    intro x hx
    simp only [xorStream, List.mem_cons] at hx
    rcases hx with rfl | hx
    · exact Nat.xor_lt_two_pow (show b < 2 ^ 8 from h b (by simp)) (hks i)
    · exact ih (i + 1) (fun y hy => h y (by simp [hy])) x hx

/-- `encryptPayload`, flattened into its on-wire layout. -/
theorem encryptPayload_eq (C : CryptoPrims) (pt : List Nat) (pass : String)
    (rounds : Nat) (salt ivBytes : List Nat) :
    encryptPayload C pt pass rounds salt ivBytes =
      [VERSION] ++ salt ++ natToBeBytes 16 (Nat.land (beBytesToNat ivBytes) ivMask) ++
        natToBeBytes 4 rounds ++
        xorStream
          (C.aesCtrKeystream
            ((C.pbkdf2Sha512 (utf8Bytes pass) salt rounds).take KEY_SIZE)
            (natToBeBytes 16 (Nat.land (beBytesToNat ivBytes) ivMask))) 0 pt ++
        C.hmacSha256 ((C.pbkdf2Sha512 (utf8Bytes pass) salt rounds).drop KEY_SIZE)
          (encryptBody C pt pass rounds salt ivBytes) := by
  simp [encryptPayload, encryptBody, List.append_assoc]

/-- `decryptPayload` evaluated on any byte list in the exact on-wire layout
with the current version byte: the MAC is recomputed over the whole prefix
and compared with the trailing 32 bytes; only on success is the keystream
applied to the ciphertext region. -/
theorem decryptPayload_of_layout (C : CryptoPrims) (salt ivb rb ct mac : List Nat)
    (pass : String) (hs : salt.length = 16) (hi : ivb.length = 16)
    (hr : rb.length = 4) (hm : mac.length = 32) :
    decryptPayload C ([VERSION] ++ salt ++ ivb ++ rb ++ ct ++ mac) pass =
      (let rounds := beBytesToNat rb
       let derivedKeys := C.pbkdf2Sha512 (utf8Bytes pass) salt rounds
       if C.hmacSha256 (derivedKeys.drop KEY_SIZE)
            ([VERSION] ++ salt ++ ivb ++ rb ++ ct) ≠ mac
       then .error .InvalidMac
       else .ok (xorStream (C.aesCtrKeystream (derivedKeys.take KEY_SIZE) ivb) 0 ct)) := by
  have hlen : ([VERSION] ++ salt ++ ivb ++ rb ++ ct ++ mac).length
      = 69 + ct.length := by
    simp [hs, hi, hr, hm]
    omega
  have hbodylen : ([VERSION] ++ salt ++ ivb ++ rb ++ ct).length = 37 + ct.length := by
    simp [hs, hi, hr]
    omega
  have hend : ([VERSION] ++ salt ++ ivb ++ rb ++ ct ++ mac).length - MAC_SIZE
      = 37 + ct.length := by
    rw [hlen]; simp [MAC_SIZE]; omega
  unfold decryptPayload
  rw [if_neg (by rw [hlen]; omega)]
  have hversion : ([VERSION] ++ salt ++ ivb ++ rb ++ ct ++ mac).headD 0 = VERSION := rfl
  rw [hversion, if_neg (by simp)]
  have hsalt : (([VERSION] ++ salt ++ ivb ++ rb ++ ct ++ mac).drop 1).take SALT_SIZE
      = salt := by
    rw [show [VERSION] ++ salt ++ ivb ++ rb ++ ct ++ mac
        = [VERSION] ++ (salt ++ (ivb ++ rb ++ ct ++ mac)) by simp]
    rw [List.drop_left' (show ([VERSION] : List Nat).length = 1 by simp)]
    exact List.take_left' hs
  have hivb : (([VERSION] ++ salt ++ ivb ++ rb ++ ct ++ mac).drop 17).take IV_SIZE
      = ivb := by
    rw [show [VERSION] ++ salt ++ ivb ++ rb ++ ct ++ mac
        = ([VERSION] ++ salt) ++ (ivb ++ (rb ++ ct ++ mac)) by simp]
    rw [List.drop_left' (by simp [hs])]
    exact List.take_left' hi
  have hrb : (([VERSION] ++ salt ++ ivb ++ rb ++ ct ++ mac).drop 33).take 4 = rb := by
    rw [show [VERSION] ++ salt ++ ivb ++ rb ++ ct ++ mac
        = ([VERSION] ++ salt ++ ivb) ++ (rb ++ (ct ++ mac)) by simp]
    rw [List.drop_left' (by simp [hs, hi])]
    exact List.take_left' hr
  have hmac : ([VERSION] ++ salt ++ ivb ++ rb ++ ct ++ mac).drop
      (([VERSION] ++ salt ++ ivb ++ rb ++ ct ++ mac).length - MAC_SIZE) = mac := by
    rw [hend]
    exact List.drop_left' hbodylen
  have hprefix : ([VERSION] ++ salt ++ ivb ++ rb ++ ct ++ mac).take
      (([VERSION] ++ salt ++ ivb ++ rb ++ ct ++ mac).length - MAC_SIZE)
      = [VERSION] ++ salt ++ ivb ++ rb ++ ct := by
    rw [hend]
    exact List.take_left' hbodylen
  have hct : (([VERSION] ++ salt ++ ivb ++ rb ++ ct ++ mac).drop 37).take
      (([VERSION] ++ salt ++ ivb ++ rb ++ ct ++ mac).length - MAC_SIZE - 37) = ct := by
    rw [hend]
    rw [show [VERSION] ++ salt ++ ivb ++ rb ++ ct ++ mac
        = ([VERSION] ++ salt ++ ivb ++ rb) ++ (ct ++ mac) by simp]
    rw [List.drop_left' (by simp [hs, hi, hr]), Nat.add_sub_cancel_left]
    exact List.take_left' rfl
  rw [hsalt, hivb, hrb, hmac, hprefix, hct]

/-- Decrypting an encrypted payload with the same passphrase recovers the
plaintext: the derived keys coincide, the recomputed MAC equals the
embedded MAC, and the keystream self-inverts. -/
theorem decryptPayload_encryptPayload (C : CryptoPrims) (pt : List Nat)
    (pass : String) (rounds : Nat) (salt ivBytes : List Nat)
    (hs : salt.length = 16) (hr : rounds < 2 ^ 32) :
    decryptPayload C (encryptPayload C pt pass rounds salt ivBytes) pass = .ok pt := by
  rw [encryptPayload_eq]
  rw [decryptPayload_of_layout C salt _ _ _ _ pass hs (natToBeBytes_length 16 _)
    (natToBeBytes_length 4 _) (C.hmacLength _ _)]
  have hrounds : beBytesToNat (natToBeBytes 4 rounds) = rounds :=
    beBytesToNat_natToBeBytes_of_lt 4 rounds (by norm_num; omega)
  simp only [hrounds]
  have hbody : [VERSION] ++ salt ++ natToBeBytes 16 (Nat.land (beBytesToNat ivBytes) ivMask) ++
      natToBeBytes 4 rounds ++
      xorStream
        (C.aesCtrKeystream ((C.pbkdf2Sha512 (utf8Bytes pass) salt rounds).take KEY_SIZE)
          (natToBeBytes 16 (Nat.land (beBytesToNat ivBytes) ivMask))) 0 pt
      = encryptBody C pt pass rounds salt ivBytes := by
    simp [encryptBody, List.append_assoc]
  rw [hbody]
  rw [if_neg (by simp)]
  rw [xorStream_xorStream]

/-! #### Armor framing lemmas -/

theorem mem_b64encode_isSome (d : List Nat) (hd : ∀ b ∈ d, b < 256) :
    ∀ c ∈ (b64encode d).data, (charSextet c).isSome := by
  intro c hc
  have : c ∈ (bytesToSextets d).map sextetChar := hc
  rw [List.mem_map] at this
  obtain ⟨s, hs, rfl⟩ := this
  have hs64 : s < 64 := bytesToSextets_lt d hd s hs
  rw [charSextet_sextetChar s hs64]
  rfl

theorem newline_not_mem_b64encode (d : List Nat) (hd : ∀ b ∈ d, b < 256) :
    '\n' ∉ (b64encode d).data := by
  intro h
  have := mem_b64encode_isSome d hd '\n' h
  simp [charSextet] at this

theorem b64encode_data_ne_nil (d : List Nat) (hne : d ≠ []) :
    (b64encode d).data ≠ [] := by
  match d with
  | [] => exact absurd rfl hne
  | [b1] => simp [b64encode, bytesToSextets]
  | [b1, b2] => simp [b64encode, bytesToSextets]
  | b1 :: b2 :: b3 :: rest => simp [b64encode, bytesToSextets]

theorem b64encode_head_not_dash (d : List Nat) (hd : ∀ b ∈ d, b < 256) :
    ∀ c, (b64encode d).data.head? = some c → c ≠ '-' := by
  intro c hc
  have hmem : c ∈ (b64encode d).data := by
    cases h : (b64encode d).data with
    | nil => rw [h] at hc; cases hc
    | cons x xs => rw [h] at hc; simp at hc; subst hc; simp [h]
  have := mem_b64encode_isSome d hd c hmem
  intro hdash
  subst hdash
  simp [charSextet] at this

theorem b64encode_last_not_cr (d : List Nat) (hd : ∀ b ∈ d, b < 256) :
    (b64encode d).data.getLast? ≠ some '\r' := by
  intro h
  have hmem : '\r' ∈ (b64encode d).data := by
    exact List.mem_of_mem_getLast? h
  have := mem_b64encode_isSome d hd '\r' hmem
  simp [charSextet] at this

theorem armorText_data (B : String) :
    (armorText B).data =
      HEADER.data ++ '\n' :: (B.data ++ '\n' :: FOOTER.data) := by
  simp [armorText, String.data_append]

theorem rsLines_armorText (B : String) (hne : B.data ≠ [])
    (hnl : '\n' ∉ B.data) (hcr : B.data.getLast? ≠ some '\r') :
    rsLines (armorText B) = [HEADER, B, FOOTER] := by
  have hHnl : '\n' ∉ HEADER.data := by decide
  have hFnl : '\n' ∉ FOOTER.data := by decide
  have hsplit : splitNl (armorText B).data = [HEADER.data, B.data, FOOTER.data] := by
    rw [armorText_data, splitNl_append_newline _ _ hHnl,
      splitNl_append_newline _ _ hnl, splitNl_no_newline _ hFnl]
  unfold rsLines
  rw [hsplit]
  have hstripH : stripCr HEADER.data = HEADER.data := by decide
  have hstripB : stripCr B.data = B.data := by
    unfold stripCr
    rw [if_neg hcr]
  simp only [List.dropLast, List.map_cons, List.map_nil, hstripH, hstripB]
  rfl

theorem rsTrimStart_armorText (B : String) : rsTrimStart (armorText B) = armorText B := by
  have hdrop : List.dropWhile rsIsWhitespace (armorText B).data = (armorText B).data := by
    rw [armorText_data]
    rw [show HEADER.data = '-' :: HEADER.data.tail from rfl]
    rw [List.cons_append, List.dropWhile_cons, if_neg (by decide)]
  unfold rsTrimStart
  rw [hdrop]

theorem rsStartsWith_armorText (B : String) :
    rsStartsWith (armorText B) HEADER = true := by
  unfold rsStartsWith
  rw [armorText_data, List.isPrefixOf_iff_prefix]
  exact List.prefix_append _ _

theorem rsTrimEnd_armorText (B : String) : rsTrimEnd (armorText B) = armorText B := by
  have hdrop : List.dropWhile rsIsWhitespace (armorText B).data.reverse
      = (armorText B).data.reverse := by
    have h : (armorText B).data =
        (HEADER.data ++ '\n' :: B.data ++ ['\n']) ++ FOOTER.data := by
      rw [armorText_data]; simp
    rw [h, List.reverse_append]
    rw [show FOOTER.data.reverse = '-' :: FOOTER.data.reverse.tail from rfl]
    rw [List.cons_append, List.dropWhile_cons, if_neg (by decide)]
  unfold rsTrimEnd
  rw [hdrop, List.reverse_reverse]

theorem rsEndsWith_armorText (B : String) :
    rsEndsWith (armorText B) FOOTER = true := by
  unfold rsEndsWith
  have h : (armorText B).data =
      (HEADER.data ++ '\n' :: B.data ++ ['\n']) ++ FOOTER.data := by
    rw [armorText_data]; simp
  rw [h, List.isSuffixOf_iff_suffix]
  exact List.suffix_append _ _

theorem rsStartsWith_self (s : String) : rsStartsWith s s = true := by
  unfold rsStartsWith
  rw [List.isPrefixOf_iff_prefix]

theorem not_rsStartsWith_of_head (s pre : String) (c c' : Char)
    (hs : s.data.head? = some c) (hp : pre.data.head? = some c') (hne : c ≠ c') :
    rsStartsWith s pre = false := by
  unfold rsStartsWith
  cases hsd : s.data with
  | nil => rw [hsd] at hs; cases hs
  | cons x xs =>
    cases hpd : pre.data with
    | nil => rw [hpd] at hp; cases hp
    | cons y ys =>
      rw [hsd] at hs
      rw [hpd] at hp
      simp only [List.head?_cons, Option.some.injEq] at hs hp
      subst hs; subst hp
      simp only [List.isPrefixOf_cons₂]
      rw [Bool.and_eq_false_iff]
      left
      simp [hne.symm]

/-- The whole armored extraction: `decrypt_key_export` on an armored,
base64-encoded payload reduces to `decryptPayload` on the raw payload
followed by deserialization. -/
theorem decrypt_key_export_armor {K : Type} (C : CryptoPrims)
    (deser : List Nat → Option (List K)) (d : List Nat) (pass : String)
    (hd : ∀ b ∈ d, b < 256) (hne : d ≠ []) :
    decrypt_key_export C deser (armorText (b64encode d)) pass =
      match decryptPayload C d pass with
      | .error e => .error e
      | .ok bytes =>
        match deser bytes with
        | none => .error .Json
        | some keys => .ok keys := by
  unfold decrypt_key_export
  rw [rsTrimStart_armorText, rsStartsWith_armorText, rsTrimEnd_armorText,
    rsEndsWith_armorText]
  simp only [Bool.and_self, Bool.not_true, Bool.false_eq_true, if_false]
  rw [rsLines_armorText (b64encode d) (b64encode_data_ne_nil d hne)
    (newline_not_mem_b64encode d hd) (b64encode_last_not_cr d hd)]
  have hBne : (b64encode d).data ≠ [] := b64encode_data_ne_nil d hne
  have hBhead : ∃ c, (b64encode d).data.head? = some c := by
    cases hx : (b64encode d).data with
    | nil => exact absurd hx hBne
    | cons x xs => exact ⟨x, by simp⟩
  obtain ⟨c, hc⟩ := hBhead
  have hcne : c ≠ '-' := b64encode_head_not_dash d hd c hc
  have hBH : rsStartsWith (b64encode d) HEADER = false :=
    not_rsStartsWith_of_head _ _ c '-' hc (by decide) hcne
  have hBF : rsStartsWith (b64encode d) FOOTER = false :=
    not_rsStartsWith_of_head _ _ c '-' hc (by decide) hcne
  have hFH : rsStartsWith FOOTER HEADER = false := by decide
  have hfilter : List.filter (fun l => !(rsStartsWith l HEADER || rsStartsWith l FOOTER))
      [HEADER, b64encode d, FOOTER] = [b64encode d] := by
    simp [List.filter_cons, rsStartsWith_self, hBH, hBF, hFH]
  rw [hfilter]
  have hjoin : String.join [b64encode d] = b64encode d := by
    simp [String.join]
  rw [hjoin]
  unfold decrypt_helper
  rw [b64decode_b64encode d hd]

theorem encryptBody_length (C : CryptoPrims) (pt : List Nat) (pass : String)
    (rounds : Nat) (salt ivBytes : List Nat) (hs : salt.length = 16) :
    (encryptBody C pt pass rounds salt ivBytes).length = 37 + pt.length := by
  simp [encryptBody, natToBeBytes_length, xorStream_length, hs]
  omega

theorem encryptPayload_length (C : CryptoPrims) (pt : List Nat) (pass : String)
    (rounds : Nat) (salt ivBytes : List Nat) (hs : salt.length = 16) :
    (encryptPayload C pt pass rounds salt ivBytes).length = pt.length + 69 := by
  have h := encryptBody_length C pt pass rounds salt ivBytes hs
  simp only [encryptPayload, List.length_append, h, C.hmacLength]
  omega

theorem encryptPayload_lt (C : CryptoPrims) (pt : List Nat) (pass : String)
    (rounds : Nat) (salt ivBytes : List Nat) (hpt : ∀ b ∈ pt, b < 256)
    (hsb : ∀ b ∈ salt, b < 256) :
    ∀ b ∈ encryptPayload C pt pass rounds salt ivBytes, b < 256 := by
  intro b hb
  simp only [encryptPayload, encryptBody, List.mem_append] at hb
  rcases hb with ((((hb | hb) | hb) | hb) | hb) | hb
  · simp [VERSION] at hb
    omega
  · exact hsb b hb
  · exact natToBeBytes_lt 16 _ b hb
  · exact natToBeBytes_lt 4 _ b hb
  · exact xorStream_lt _ (fun i => C.aesCtrBytes _ _ i) 0 pt hpt b hb
  · exact C.hmacBytes _ _ b hb

theorem encryptPayload_ne_nil (C : CryptoPrims) (pt : List Nat) (pass : String)
    (rounds : Nat) (salt ivBytes : List Nat) :
    encryptPayload C pt pass rounds salt ivBytes ≠ [] := by
  simp [encryptPayload, encryptBody]

/-- C1: Key Export round-trip — for every non-empty list of room-key
records, every passphrase, and every rounds count ≥ 1 (a `u32`),
decrypting the armored text produced by `encrypt_key_export` with the same
passphrase succeeds and returns the original records in the original
order.  The external serializer/deserializer pair is abstract, assumed
only to round-trip on this key list and to produce bytes; the external
crypto primitives and the random salt/iv are arbitrary. -/
theorem c1_key_export_round_trip {K : Type} (C : CryptoPrims)
    (ser : List K → List Nat) (deser : List Nat → Option (List K))
    (keys : List K) (pass : String) (rounds : Nat) (salt ivBytes : List Nat)
    (hkeys : keys ≠ []) (hrounds1 : 1 ≤ rounds) (hrounds : rounds < 2 ^ 32)
    (hsalt : salt.length = 16) (hsaltB : ∀ b ∈ salt, b < 256)
    (hser : ∀ b ∈ ser keys, b < 256)
    (hdeser : deser (ser keys) = some keys) :
    decrypt_key_export C deser
      (encrypt_key_export C ser keys pass rounds salt ivBytes) pass = .ok keys := by
  unfold encrypt_key_export encrypt_helper
  rw [decrypt_key_export_armor C deser _ pass
    (encryptPayload_lt C _ pass rounds salt ivBytes hser hsaltB)
    (encryptPayload_ne_nil C _ pass rounds salt ivBytes)]
  rw [decryptPayload_encryptPayload C _ pass rounds salt ivBytes hsalt hrounds]
  simp [hdeser]

/-- Witness for C1 at a concrete input. -/
theorem c1_key_export_round_trip_witness :
    decrypt_key_export trivPrims (fun bs => some bs)
      (encrypt_key_export trivPrims (fun ks => ks) [5] "p" 1
        (List.replicate 16 0) (List.replicate 16 0)) "p" = .ok [5] :=
  c1_key_export_round_trip trivPrims (fun ks => ks) (fun bs => some bs) [5] "p" 1
    (List.replicate 16 0) (List.replicate 16 0) (by decide) (by decide)
    (by norm_num) (by simp) (by decide) (by decide) rfl

/-- C2: authenticate-then-decrypt — on decrypt, the MAC is recomputed over
every byte of the decoded payload except the final 32-byte MAC, taken from
the input as received; if it does not match the embedded MAC the operation
fails with `InvalidMac`.  In this embedding the stream cipher appears only
in the success branch of the MAC comparison, so the error return also
witnesses that the cipher was never applied. -/
theorem c2_authenticate_then_decrypt (C : CryptoPrims) (decoded : List Nat)
    (pass : String) (hlen : 37 ≤ decoded.length)
    (hver : decoded.headD 0 = VERSION)
    (hmacNe : C.hmacSha256
        ((C.pbkdf2Sha512 (utf8Bytes pass) ((decoded.drop 1).take SALT_SIZE)
          (beBytesToNat ((decoded.drop 33).take 4))).drop KEY_SIZE)
        (decoded.take (decoded.length - MAC_SIZE))
      ≠ decoded.drop (decoded.length - MAC_SIZE)) :
    decryptPayload C decoded pass = .error .InvalidMac := by
  unfold decryptPayload
  rw [if_neg (by omega), hver, if_neg (by simp), if_pos hmacNe]

/-- Witness for C2 at a concrete input. -/
theorem c2_authenticate_then_decrypt_witness :
    decryptPayload trivPrims ([1] ++ List.replicate 35 0 ++ [7]) "p"
      = .error .InvalidMac :=
  c2_authenticate_then_decrypt trivPrims ([1] ++ List.replicate 35 0 ++ [7]) "p"
    (by decide) (by decide) (by decide)

/-- C5: wrong passphrase — decrypting an export made under passphrase
`pass` with a different passphrase fails with `InvalidMac`, under the
collision-freeness hypothesis that the MAC recomputed with the
differently-derived key differs from the embedded MAC (the property the
code relies on HMAC/PBKDF2 for). -/
theorem c5_wrong_passphrase {K : Type} (C : CryptoPrims)
    (ser : List K → List Nat) (deser : List Nat → Option (List K))
    (keys : List K) (pass passBad : String) (rounds : Nat)
    (salt ivBytes : List Nat)
    (hser : ∀ b ∈ ser keys, b < 256) (hsalt : salt.length = 16)
    (hsaltB : ∀ b ∈ salt, b < 256) (hrounds : rounds < 2 ^ 32)
    (hne : passBad ≠ pass)
    (hcrypto : C.hmacSha256
        ((C.pbkdf2Sha512 (utf8Bytes passBad) salt rounds).drop KEY_SIZE)
        (encryptBody C (ser keys) pass rounds salt ivBytes)
      ≠ C.hmacSha256
        ((C.pbkdf2Sha512 (utf8Bytes pass) salt rounds).drop KEY_SIZE)
        (encryptBody C (ser keys) pass rounds salt ivBytes)) :
    decrypt_key_export C deser
      (encrypt_key_export C ser keys pass rounds salt ivBytes) passBad
      = .error .InvalidMac := by
  unfold encrypt_key_export encrypt_helper
  rw [decrypt_key_export_armor C deser _ passBad
    (encryptPayload_lt C _ pass rounds salt ivBytes hser hsaltB)
    (encryptPayload_ne_nil C _ pass rounds salt ivBytes)]
  rw [encryptPayload_eq]
  rw [decryptPayload_of_layout C salt _ _ _ _ passBad hsalt (natToBeBytes_length 16 _)
    (natToBeBytes_length 4 _) (C.hmacLength _ _)]
  have hroundsEq : beBytesToNat (natToBeBytes 4 rounds) = rounds :=
    beBytesToNat_natToBeBytes_of_lt 4 rounds (by norm_num; omega)
  simp only [hroundsEq]
  have hbody : [VERSION] ++ salt ++ natToBeBytes 16 (Nat.land (beBytesToNat ivBytes) ivMask) ++
      natToBeBytes 4 rounds ++
      xorStream
        (C.aesCtrKeystream ((C.pbkdf2Sha512 (utf8Bytes pass) salt rounds).take KEY_SIZE)
          (natToBeBytes 16 (Nat.land (beBytesToNat ivBytes) ivMask))) 0 (ser keys)
      = encryptBody C (ser keys) pass rounds salt ivBytes := by
    simp [encryptBody, List.append_assoc]
  rw [hbody]
  rw [if_pos hcrypto]

/-- Witness for C5 at a concrete input. -/
theorem c5_wrong_passphrase_witness :
    decrypt_key_export keyedPrims (fun bs => some bs)
      (encrypt_key_export keyedPrims (fun ks => ks) [5] "p" 1
        (List.replicate 16 0) (List.replicate 16 0)) "q"
      = .error .InvalidMac :=
  c5_wrong_passphrase keyedPrims (fun ks => ks) (fun bs => some bs) [5] "p" "q" 1
    (List.replicate 16 0) (List.replicate 16 0) (by decide) (by simp) (by decide)
    (by norm_num) (by decide) (by decide)

/-- C6: version gating — any payload long enough to parse whose version
byte differs from the current version fails with `UnsupportedVersion`,
for every choice of the crypto primitives and regardless of the payload's
remaining content (in the embedding the MAC comparison appears only after
this check, so no MAC verification takes place). -/
theorem c6_version_gating (C : CryptoPrims) (decoded : List Nat) (pass : String)
    (hlen : 37 ≤ decoded.length) (hver : decoded.headD 0 ≠ VERSION) :
    decryptPayload C decoded pass = .error .UnsupportedVersion := by
  unfold decryptPayload
  rw [if_neg (by omega), if_pos hver]

/-- Witness for C6 at a concrete input (note that under `trivPrims` the
embedded all-zero MAC would be valid, and the version error still wins). -/
theorem c6_version_gating_witness :
    decryptPayload trivPrims ([2] ++ List.replicate 36 0) "p"
      = .error .UnsupportedVersion :=
  c6_version_gating trivPrims ([2] ++ List.replicate 36 0) "p" (by decide) (by decide)

/-- C10: size invariant — the base64-decoded payload produced by
`encrypt_helper` has length exactly plaintext length + 69 (1 version byte,
16 salt, 16 iv, 4 rounds, 32 MAC of overhead), and the stream cipher is
length-preserving. -/
theorem c10_size_invariant (C : CryptoPrims) (pt : List Nat) (pass : String)
    (rounds : Nat) (salt ivBytes : List Nat) (hsalt : salt.length = 16)
    (hsaltB : ∀ b ∈ salt, b < 256) (hpt : ∀ b ∈ pt, b < 256) :
    ∃ payload, b64decode (encrypt_helper C pt pass rounds salt ivBytes) = some payload
      ∧ payload.length = pt.length + 69
      ∧ ∀ key ivb, (xorStream (C.aesCtrKeystream key ivb) 0 pt).length = pt.length := by
  refine ⟨encryptPayload C pt pass rounds salt ivBytes, ?_, ?_, ?_⟩
  · exact b64decode_b64encode _ (encryptPayload_lt C pt pass rounds salt ivBytes hpt hsaltB)
  · exact encryptPayload_length C pt pass rounds salt ivBytes hsalt
  · intro key ivb
    exact xorStream_length _ _ _

/-- Witness for C10 at a concrete input. -/
theorem c10_size_invariant_witness :
    ∃ payload, b64decode (encrypt_helper trivPrims [9, 9, 9] "p" 1
        (List.replicate 16 0) (List.replicate 16 0)) = some payload
      ∧ payload.length = 3 + 69
      ∧ ∀ key ivb,
          (xorStream (trivPrims.aesCtrKeystream key ivb) 0 [9, 9, 9]).length = 3 :=
  c10_size_invariant trivPrims [9, 9, 9] "p" 1 (List.replicate 16 0)
    (List.replicate 16 0) (by simp) (by decide) (by decide)

theorem ivMask_eq : ivMask = (2 ^ 128 - 1) ^^^ 2 ^ 63 := by decide

theorem testBit_ivMask (i : Nat) :
    Nat.testBit ivMask i = (decide (i < 128) && !decide (63 = i)) := by
  rw [ivMask_eq, Nat.testBit_xor, Nat.testBit_two_pow_sub_one, Nat.testBit_two_pow]
  by_cases h : i < 128
  · by_cases h2 : 63 = i <;> simp [h, h2]
  · have h2 : 63 ≠ i := by omega
    simp [h, h2]

theorem beBytesToNat_lt_pow (bs : List Nat) (h : ∀ b ∈ bs, b < 256) :
    beBytesToNat bs < 256 ^ bs.length := by
  induction bs using List.reverseRecOn with
  | nil => simp [beBytesToNat]
  | append_singleton xs b ih =>
    rw [beBytesToNat_append_singleton]
    have hb : b < 256 := h b (by simp)
    have hxs := ih (fun y hy => h y (by simp [hy]))
    rw [List.length_append, List.length_singleton, pow_succ]
    omega

/-- Bit-level effect of the iv mask: bit 63 is cleared, every other bit of
a 128-bit value is preserved. -/
theorem land_ivMask_testBit (iv : Nat) (hiv : iv < 2 ^ 128) :
    Nat.testBit (Nat.land iv ivMask) 63 = false
    ∧ ∀ i, i ≠ 63 → Nat.testBit (Nat.land iv ivMask) i = Nat.testBit iv i := by
  have hland : Nat.land iv ivMask = iv &&& ivMask := rfl
  rw [hland]
  constructor
  · rw [Nat.testBit_land, testBit_ivMask]
    simp
  · intro i hi
    by_cases h : i < 128
    · rw [Nat.testBit_land, testBit_ivMask]
      simp [h, Ne.symm hi]
    · have h1 : Nat.testBit iv i = false :=
        Nat.testBit_lt_two_pow
          (lt_of_lt_of_le hiv (Nat.pow_le_pow_right (by norm_num) (by omega)))
      rw [Nat.testBit_land, testBit_ivMask, h1]
      simp [h]

/-- The iv field (bytes 17..32) of the encrypted payload. -/
theorem encryptPayload_iv_field (C : CryptoPrims) (pt : List Nat) (pass : String)
    (rounds : Nat) (salt ivBytes : List Nat) (hs : salt.length = 16) :
    ((encryptPayload C pt pass rounds salt ivBytes).drop 17).take 16
      = natToBeBytes 16 (Nat.land (beBytesToNat ivBytes) ivMask) := by
  rw [encryptPayload_eq]
  rw [show ∀ (w x y z : List Nat), [VERSION] ++ salt ++ w ++ x ++ y ++ z
      = ([VERSION] ++ salt) ++ (w ++ (x ++ y ++ z)) from fun _ _ _ _ => by simp]
  rw [List.drop_left' (by simp [hs])]
  exact List.take_left' (natToBeBytes_length 16 _)

/-- C3 as stated is false on the code: the source masks a `u128` with
`!(1u128 << 63)`, which clears bit 63, not the most significant bit of the
128-bit value.  For the iv whose big-endian bytes are `0x80` followed by
fifteen zero bytes (the value `2^127`), the iv embedded in the payload
still has its top bit set. -/
theorem c3_iv_top_bit_counterexample :
    Nat.testBit (beBytesToNat (((encryptPayload trivPrims [] "p" 1
      (List.replicate 16 0) (128 :: List.replicate 15 0)).drop 17).take 16)) 127
      = true := by
  decide

/-- C3 amended: on every export the encrypt path clears bit 63 of the
128-bit big-endian iv value (the most significant bit of its low 64-bit
half) before using it as the counter-mode nonce; all other bits are
preserved, so the embedded iv always has bit 63 clear, while its top bit
(bit 127) is left as drawn. -/
theorem c3_iv_bit63_cleared (C : CryptoPrims) (pt : List Nat) (pass : String)
    (rounds : Nat) (salt ivBytes : List Nat) (hsalt : salt.length = 16)
    (hivlen : ivBytes.length = 16) (hivB : ∀ b ∈ ivBytes, b < 256) :
    ((encryptPayload C pt pass rounds salt ivBytes).drop 17).take 16
      = natToBeBytes 16 (Nat.land (beBytesToNat ivBytes) ivMask)
    ∧ Nat.testBit (Nat.land (beBytesToNat ivBytes) ivMask) 63 = false
    ∧ ∀ i, i ≠ 63 →
        Nat.testBit (Nat.land (beBytesToNat ivBytes) ivMask) i
          = Nat.testBit (beBytesToNat ivBytes) i := by
  have hiv : beBytesToNat ivBytes < 2 ^ 128 := by
    have := beBytesToNat_lt_pow ivBytes hivB
    rw [hivlen] at this
    calc beBytesToNat ivBytes < 256 ^ 16 := this
    _ = 2 ^ 128 := by norm_num
  obtain ⟨h1, h2⟩ := land_ivMask_testBit (beBytesToNat ivBytes) hiv
  exact ⟨encryptPayload_iv_field C pt pass rounds salt ivBytes hsalt, h1, h2⟩

/-- Witness for the amended C3 at a concrete input. -/
theorem c3_iv_bit63_cleared_witness :
    ((encryptPayload trivPrims [] "p" 1 (List.replicate 16 0)
        (List.replicate 16 255)).drop 17).take 16
      = natToBeBytes 16 (Nat.land (beBytesToNat (List.replicate 16 255)) ivMask)
    ∧ Nat.testBit (Nat.land (beBytesToNat (List.replicate 16 255)) ivMask) 63 = false
    ∧ ∀ i, i ≠ 63 →
        Nat.testBit (Nat.land (beBytesToNat (List.replicate 16 255)) ivMask) i
          = Nat.testBit (beBytesToNat (List.replicate 16 255)) i :=
  c3_iv_bit63_cleared trivPrims [] "p" 1 (List.replicate 16 0)
    (List.replicate 16 255) (by simp) (by simp) (by decide)

/-- `encryptBody`, flattened into its on-wire layout. -/
theorem encryptBody_eq (C : CryptoPrims) (pt : List Nat) (pass : String)
    (rounds : Nat) (salt ivBytes : List Nat) :
    encryptBody C pt pass rounds salt ivBytes =
      [VERSION] ++ salt ++ natToBeBytes 16 (Nat.land (beBytesToNat ivBytes) ivMask) ++
        natToBeBytes 4 rounds ++
        xorStream
          (C.aesCtrKeystream
            ((C.pbkdf2Sha512 (utf8Bytes pass) salt rounds).take KEY_SIZE)
            (natToBeBytes 16 (Nat.land (beBytesToNat ivBytes) ivMask))) 0 pt := rfl

theorem getD_set_self (l : List Nat) (i a : Nat) (hi : i < l.length) :
    (l.set i a).getD i 0 = a := by
  rw [List.getD_eq_getElem?_getD, List.getElem?_set_self]
  · simp
  · exact hi

/-- C4: tamper detection — flipping any single byte in the ciphertext
region or the MAC region of the decoded payload of an export and
re-armoring it makes decryption with the original passphrase fail with
`InvalidMac`.  For a flip in the MAC region this holds outright; for a
flip in the ciphertext region it holds under the hypothesis that the MAC
of the modified body differs from the MAC of the original body (the
second-preimage property the code relies on HMAC for). -/
theorem c4_tamper_detection {K : Type} (C : CryptoPrims)
    (ser : List K → List Nat) (deser : List Nat → Option (List K))
    (keys : List K) (pass : String) (rounds : Nat) (salt ivBytes : List Nat)
    (p bNew : Nat)
    (hser : ∀ b ∈ ser keys, b < 256) (hsalt : salt.length = 16)
    (hsaltB : ∀ b ∈ salt, b < 256) (hrounds : rounds < 2 ^ 32)
    (hbNew : bNew < 256) (hp : 37 ≤ p) (hplt : p < (ser keys).length + 69)
    (hbne : bNew ≠ (encryptPayload C (ser keys) pass rounds salt ivBytes).getD p 0)
    (hcrypto : p < (ser keys).length + 37 →
      C.hmacSha256 ((C.pbkdf2Sha512 (utf8Bytes pass) salt rounds).drop KEY_SIZE)
        ((encryptBody C (ser keys) pass rounds salt ivBytes).set p bNew)
      ≠ C.hmacSha256 ((C.pbkdf2Sha512 (utf8Bytes pass) salt rounds).drop KEY_SIZE)
        (encryptBody C (ser keys) pass rounds salt ivBytes)) :
    decrypt_key_export C deser
      (armorText (b64encode
        ((encryptPayload C (ser keys) pass rounds salt ivBytes).set p bNew))) pass
      = .error .InvalidMac := by
  have hbytes : ∀ b ∈ (encryptPayload C (ser keys) pass rounds salt ivBytes).set p bNew,
      b < 256 := by
    intro b hb
    rcases List.mem_or_eq_of_mem_set hb with h | rfl
    · exact encryptPayload_lt C (ser keys) pass rounds salt ivBytes hser hsaltB b h
    · exact hbNew
  have hlenP : (encryptPayload C (ser keys) pass rounds salt ivBytes).length
      = (ser keys).length + 69 :=
    encryptPayload_length C (ser keys) pass rounds salt ivBytes hsalt
  have hne2 : (encryptPayload C (ser keys) pass rounds salt ivBytes).set p bNew ≠ [] := by
    intro h
    have hc := congrArg List.length h
    rw [List.length_set, hlenP] at hc
    simp at hc
  rw [decrypt_key_export_armor C deser _ pass hbytes hne2]
  suffices hkey :
      decryptPayload C
        ((encryptPayload C (ser keys) pass rounds salt ivBytes).set p bNew) pass
      = .error .InvalidMac by
    rw [hkey]
  have hbodylen : (encryptBody C (ser keys) pass rounds salt ivBytes).length
      = 37 + (ser keys).length :=
    encryptBody_length C (ser keys) pass rounds salt ivBytes hsalt
  have hPdef : encryptPayload C (ser keys) pass rounds salt ivBytes
      = encryptBody C (ser keys) pass rounds salt ivBytes
        ++ C.hmacSha256 ((C.pbkdf2Sha512 (utf8Bytes pass) salt rounds).drop KEY_SIZE)
          (encryptBody C (ser keys) pass rounds salt ivBytes) := rfl
  have hroundsEq : beBytesToNat (natToBeBytes 4 rounds) = rounds :=
    beBytesToNat_natToBeBytes_of_lt 4 rounds (by norm_num; omega)
  by_cases hcase : p < (ser keys).length + 37
  · -- ciphertext-region flip
    have hset : (encryptPayload C (ser keys) pass rounds salt ivBytes).set p bNew
        = (encryptBody C (ser keys) pass rounds salt ivBytes).set p bNew
          ++ C.hmacSha256 ((C.pbkdf2Sha512 (utf8Bytes pass) salt rounds).drop KEY_SIZE)
            (encryptBody C (ser keys) pass rounds salt ivBytes) := by
      rw [hPdef, List.set_append_left _ _ (by rw [hbodylen]; omega)]
    have hsetBody : (encryptBody C (ser keys) pass rounds salt ivBytes).set p bNew
        = [VERSION] ++ salt ++ natToBeBytes 16 (Nat.land (beBytesToNat ivBytes) ivMask) ++
            natToBeBytes 4 rounds ++
            (xorStream
              (C.aesCtrKeystream
                ((C.pbkdf2Sha512 (utf8Bytes pass) salt rounds).take KEY_SIZE)
                (natToBeBytes 16 (Nat.land (beBytesToNat ivBytes) ivMask))) 0
              (ser keys)).set (p - 37) bNew := by
      rw [encryptBody_eq]
      rw [List.set_append_right _ _ (by simp [hsalt, natToBeBytes_length]; omega)]
      congr 2
      simp [hsalt, natToBeBytes_length]
    rw [hset, hsetBody]
    rw [decryptPayload_of_layout C salt _ _ _ _ pass hsalt (natToBeBytes_length 16 _)
      (natToBeBytes_length 4 _) (C.hmacLength _ _)]
    simp only [hroundsEq]
    rw [← hsetBody]
    rw [if_pos (hcrypto hcase)]
  · -- MAC-region flip
    have hq : p - (37 + (ser keys).length) < 32 := by omega
    have hset : (encryptPayload C (ser keys) pass rounds salt ivBytes).set p bNew
        = encryptBody C (ser keys) pass rounds salt ivBytes
          ++ (C.hmacSha256 ((C.pbkdf2Sha512 (utf8Bytes pass) salt rounds).drop KEY_SIZE)
              (encryptBody C (ser keys) pass rounds salt ivBytes)).set
            (p - (37 + (ser keys).length)) bNew := by
      rw [hPdef, List.set_append_right _ _ (by rw [hbodylen]; omega), hbodylen]
    have hmacNe : C.hmacSha256 ((C.pbkdf2Sha512 (utf8Bytes pass) salt rounds).drop KEY_SIZE)
        (encryptBody C (ser keys) pass rounds salt ivBytes)
        ≠ (C.hmacSha256 ((C.pbkdf2Sha512 (utf8Bytes pass) salt rounds).drop KEY_SIZE)
            (encryptBody C (ser keys) pass rounds salt ivBytes)).set
          (p - (37 + (ser keys).length)) bNew := by
      intro heq
      have hmacLen : (C.hmacSha256
          ((C.pbkdf2Sha512 (utf8Bytes pass) salt rounds).drop KEY_SIZE)
          (encryptBody C (ser keys) pass rounds salt ivBytes)).length = 32 :=
        C.hmacLength _ _
      have hgd := getD_set_self
        (C.hmacSha256 ((C.pbkdf2Sha512 (utf8Bytes pass) salt rounds).drop KEY_SIZE)
          (encryptBody C (ser keys) pass rounds salt ivBytes))
        (p - (37 + (ser keys).length)) bNew (by omega)
      rw [← heq] at hgd
      apply hbne
      rw [hPdef, List.getD_append_right _ _ _ _ (by rw [hbodylen]; omega), hbodylen]
      exact hgd.symm
    rw [hset, encryptBody_eq]
    rw [decryptPayload_of_layout C salt _ _ _ _ pass hsalt (natToBeBytes_length 16 _)
      (natToBeBytes_length 4 _) (by rw [List.length_set]; exact C.hmacLength _ _)]
    simp only [hroundsEq]
    rw [← encryptBody_eq]
    rw [if_pos hmacNe]

/-- Witness for C4 at a concrete input (a flip in the MAC region, where
the failure needs no cryptographic hypothesis). -/
theorem c4_tamper_detection_witness :
    decrypt_key_export trivPrims (fun bs => some bs)
      (armorText (b64encode
        ((encryptPayload trivPrims [5] "p" 1 (List.replicate 16 0)
          (List.replicate 16 0)).set 40 1))) "p"
      = .error .InvalidMac :=
  c4_tamper_detection trivPrims (fun ks => ks) (fun bs => some bs) [5] "p" 1
    (List.replicate 16 0) (List.replicate 16 0) 40 1 (by decide) (by simp)
    (by decide) (by norm_num) (by norm_num) (by norm_num) (by decide)
    (by decide) (by decide)

end KeyExport

namespace QrCode

/-- C7: `to_bytes` succeeds exactly when the flow id's UTF-8 byte length
fits in 16 bits and all three key/secret strings are valid unpadded
standard base64, and on success returns the concatenation of the 6-byte
magic tag, the version byte 2, the mode byte, the 2-byte big-endian flow
id length, the flow id's UTF-8 bytes, and the three base64-decoded byte
strings in order. -/
theorem c7_to_bytes_framing (mode : Nat) (flow_id fk sk ss : String)
    (out : List Nat) :
    to_bytes mode flow_id fk sk ss = .ok out ↔
      ((utf8Bytes flow_id).length ≤ 65535 ∧
        ∃ k1 k2 secret, b64decode fk = some k1 ∧ b64decode sk = some k2 ∧
          b64decode ss = some secret ∧
          out = HEADER ++ [VERSION] ++ [mode] ++
            natToBeBytes 2 (utf8Bytes flow_id).length ++
            utf8Bytes flow_id ++ k1 ++ k2 ++ secret) := by
  unfold to_bytes
  constructor
  · intro h
    by_cases hlen : 65535 < (utf8Bytes flow_id).length
    · rw [if_pos hlen] at h
      cases h
    · rw [if_neg hlen] at h
      cases h1 : b64decode fk with
      | none => rw [h1] at h; cases h
      | some k1 =>
        rw [h1] at h
        cases h2 : b64decode sk with
        | none => rw [h2] at h; cases h
        | some k2 =>
          rw [h2] at h
          cases h3 : b64decode ss with
          | none => rw [h3] at h; cases h
          | some secret =>
            rw [h3] at h
            cases h
            exact ⟨by omega, k1, k2, secret, rfl, rfl, rfl, rfl⟩
  · rintro ⟨hlen, k1, k2, secret, h1, h2, h3, rfl⟩
    rw [if_neg (by omega), h1, h2, h3]

/-- The loop of `decode_qr` with an explicit error accumulator: the first
tag-matching successful decode wins; otherwise the last structural error
of the remaining grids, then the accumulator, then `Header`. -/
theorem decodeQrLoop_spec {E : Type} (grids : List (Except E (List Nat)))
    (err : Option E) :
    decodeQrLoop grids err =
      match firstTagMatch grids with
      | some d => .ok d
      | none =>
        match lastGridError grids with
        | some e => .error (.Grid e)
        | none =>
          match err with
          | some e => .error (.Grid e)
          | none => .error .Header := by
  induction grids generalizing err with
  | nil => cases err <;> rfl
  | cons g gs ih =>
    cases g with
    | ok d =>
      by_cases htag : HEADER <+: d
      · have hb : HEADER.isPrefixOf d = true := List.isPrefixOf_iff_prefix.mpr htag
        simp [decodeQrLoop, hb, firstTagMatch, List.filterMap_cons, htag]
      · have hb : HEADER.isPrefixOf d = false := by
          rw [Bool.eq_false_iff]
          intro hx
          exact htag (List.isPrefixOf_iff_prefix.mp hx)
        simp only [decodeQrLoop, hb, Bool.false_eq_true, if_false]
        rw [ih err]
        simp [firstTagMatch, lastGridError, List.filterMap_cons, hb, htag]
    | error e =>
      simp only [decodeQrLoop]
      rw [ih (some e)]
      simp only [firstTagMatch, lastGridError, List.filterMap_cons]
      cases hfm : (gs.filterMap fun g =>
          match g with
          | .ok d => if HEADER.isPrefixOf d then some d else none
          | .error _ => none).head? with
      | some d => rfl
      | none =>
        cases hgl : (gs.filterMap fun g =>
            match g with
            | .error e => some e
            | .ok _ => none) with
        | nil => rfl
        | cons x xs =>
          rw [List.getLast?_cons_cons]
          cases hg : (x :: xs).getLast? with
          | none => simp at hg
          | some e2 => rfl

/-- C8 as stated is false on the code: with two detected regions, the
first decoding successfully to a payload without the magic tag and the
second failing structurally, the claim requires a `Header` failure but
`decode_qr` propagates the structural error. -/
theorem c8_scan_policy_counterexample :
    decode_qr [Except.ok ([0] : List Nat), Except.error (7 : Nat)]
        = .error (.Grid 7)
      ∧ DecodingError.Grid (7 : Nat) ≠ DecodingError.Header := by
  constructor
  · rfl
  · intro h
    cases h

/-- C8 amended: `decode_qr` returns the first successfully decoded payload
whose first 6 bytes equal the magic tag; if no region yields one, it
propagates the most recent structural decode error whenever at least one
region failed structurally, and fails with `Header` only when every
detected region decoded successfully (or no region was detected). -/
theorem c8_scan_policy {E : Type} (grids : List (Except E (List Nat))) :
    decode_qr grids =
      match firstTagMatch grids with
      | some d => .ok d
      | none =>
        match lastGridError grids with
        | some e => .error (.Grid e)
        | none => .error .Header := by
  rw [decode_qr, decodeQrLoop_spec]

end QrCode

namespace Requests

/-- C9: for every `OutgoingVerificationRequest`, the `OutgoingRequest`
constructed from it carries a `request_id` equal to the `txn_id` of the
underlying `ToDeviceRequest` or `RoomMessageRequest`. -/
theorem c9_correlator_identity (v : OutgoingVerificationRequest) :
    (outgoingRequestOfVerification v).request_id =
      match v with
      | .ToDevice t => t.txn_id
      | .InRoom r => r.txn_id := by
  cases v <;> rfl

end Requests

end MatrixSdk
